import Mathlib

/-!
Verification development for the `sss-crypto` repository: a CLI that splits
an RSA private key into Shamir secret shares, and encrypts/decrypts text with
a hybrid AES-GCM + RSA-OAEP scheme.

The TypeScript sources are shallowly embedded below:

* `src/utils/shares.ts`   — share (de)serialization, split/combine/add glue;
* `src/utils/converters.ts` — shares ↔ private key conversion;
* `src/utils/crypto.ts`   — envelope (de)serialization, hybrid encrypt/decrypt;
* `src/faces/decrypt.tsx` — the interactive share-collection state machine;
* `src/faces/add-share.tsx` — the add-share flow.

External collaborators (the `secrets.js` Shamir primitive and `node:crypto`)
are modelled as structures of operations; the behaviour the repository relies
upon is captured by separate `Prop`-valued contract structures, and concrete
instances satisfying those contracts are constructed for witnesses.

Machine integers are modelled as `Nat` (all quantities involved are
non-negative JavaScript numbers far below 2^53, so no overflow is possible),
strings as Lean `String`/`List Char`, and byte buffers as `List Nat` with an
explicit `ValidBytes` (< 256) predicate.
-/

namespace SSSCrypto

/-! ## Character classes and digit values -/

/-- Decimal digit, as matched by the `\d` regex class (code points 48-57). -/
def isDecDigit (c : Char) : Bool :=
  48 ≤ c.toNat && c.toNat ≤ 57

/-- Character class `[a-zA-Z0-9+=/]` of the first-stage share regex
(`serializedShareSchema` in `src/utils/shares.ts`). -/
def isShareCharsetChar (c : Char) : Bool :=
  (97 ≤ c.toNat && c.toNat ≤ 122) || (65 ≤ c.toNat && c.toNat ≤ 90)
    || (48 ≤ c.toNat && c.toNat ≤ 57)
    || c.toNat = 43 || c.toNat = 61 || c.toNat = 47

/-- Character class `[A-Za-z0-9+/]` of the base64 body regex. -/
def isB64Char (c : Char) : Bool :=
  (65 ≤ c.toNat && c.toNat ≤ 90) || (97 ≤ c.toNat && c.toNat ≤ 122)
    || (48 ≤ c.toNat && c.toNat ≤ 57) || c.toNat = 43 || c.toNat = 47

/-- Lowercase hexadecimal digit (`[0-9a-f]`). -/
def isLowerHexChar (c : Char) : Bool :=
  (48 ≤ c.toNat && c.toNat ≤ 57) || (97 ≤ c.toNat && c.toNat ≤ 102)

/-- Digit value of a character as JavaScript `parseInt` sees it
(`0`-`9`, `a`-`z`, `A`-`Z`, case-insensitive). `none` for non-digits. -/
def digitValue (c : Char) : Option Nat :=
  if 48 ≤ c.toNat && c.toNat ≤ 57 then some (c.toNat - 48)
  else if 97 ≤ c.toNat && c.toNat ≤ 122 then some (c.toNat - 97 + 10)
  else if 65 ≤ c.toNat && c.toNat ≤ 90 then some (c.toNat - 65 + 10)
  else none

/-- Character for a digit value below 36, lowercase, as produced by
JavaScript `Number.prototype.toString(base)`. -/
def digitChar36 (d : Nat) : Char :=
  if d < 10 then Char.ofNat (48 + d) else Char.ofNat (97 + (d - 10))

/-- Digits of `n` in the given base, fuelled structural recursion (the fuel
`n + 1` always suffices since `n / base < n` for `base ≥ 2`). -/
def natToDigitsAux : Nat → Nat → Nat → List Char
  | 0, _, n => [digitChar36 n]
  | fuel + 1, base, n =>
    if n < base ∨ base ≤ 1 then [digitChar36 n]
    else natToDigitsAux fuel base (n / base) ++ [digitChar36 (n % base)]

/-- Digits of `n` in the given base (lowercase), most significant first:
JavaScript `n.toString(base)` for a non-negative integer `n`. -/
def natToDigits (base : Nat) (n : Nat) : List Char :=
  natToDigitsAux (n + 1) base n

/-- Value of a digit list under the given base (most significant first). -/
def digitsVal (base : Nat) (l : List Char) : Nat :=
  l.foldl (fun acc c => acc * base + ((digitValue c).getD 0)) 0

/-- JavaScript `parseInt(str, base)` restricted to the plain-digit case:
take the longest prefix of digits valid in `base`; `none` (NaN) when that
prefix is empty. (Sign/whitespace/`0x` handling is irrelevant here: every
call site feeds strings already vetted by a digits-only regex.) -/
def parseIntJS (base : Nat) (l : List Char) : Option Nat :=
  let digs := l.takeWhile (fun c => ((digitValue c).getD base) < base)
  if digs.isEmpty then none else some (digitsVal base digs)

/-- JavaScript `Number(str)` (zod `z.coerce.number()`) restricted to
all-decimal-digit strings — the only shape reaching it in
`deserializeShare`, whose first-stage regex admits nothing else.
`none` models the non-finite/NaN outcomes rejected by `z.number()`. -/
def coerceNumber (l : List Char) : Option Nat :=
  if l.isEmpty then none
  else if l.all isDecDigit then some (digitsVal 10 l) else none

/-! ## Splitting on a separator (JavaScript `String.prototype.split`) -/

/-- Accumulator-shaped worker for `splitOnChar` (keeps kernel evaluation of
long separator-free runs shallow). -/
def splitOnCharAux (sep : Char) : List Char → List Char → List (List Char)
  | [], acc => [acc.reverse]
  | c :: rest, acc =>
    if c = sep then acc.reverse :: splitOnCharAux sep rest []
    else splitOnCharAux sep rest (c :: acc)

/-- `l.split(sep)` for a single-character separator: splits into the
(sep-free) segments, keeping empty segments, as JavaScript does. -/
def splitOnChar (sep : Char) (l : List Char) : List (List Char) :=
  splitOnCharAux sep l []

/-! ## Bytes, hex and base64 (Node `Buffer` conversions)

Byte buffers are `List Nat`; `ValidBytes` states every entry is a byte. -/

/-- Every entry of the list is a byte value. -/
def ValidBytes (l : List Nat) : Prop := ∀ b ∈ l, b < 256

instance : DecidablePred ValidBytes := fun l =>
  decidable_of_iff (∀ b ∈ l, b < 256) Iff.rfl

/-- `Buffer.prototype.toString("hex")`: two lowercase hex digits per byte. -/
def bytesToHex : List Nat → List Char
  | [] => []
  | b :: bs => digitChar36 (b / 16) :: digitChar36 (b % 16) :: bytesToHex bs

/-- `Buffer.from(str, "hex")`: consumes hex-digit pairs (a trailing odd
digit is dropped, as Node does). Only ever applied to valid even-length
hex in the sources. -/
def hexToBytes : List Char → List Nat
  | [] => []
  | [_] => []
  | c1 :: c2 :: rest =>
    (((digitValue c1).getD 0) * 16 + (digitValue c2).getD 0) :: hexToBytes rest

/-- Valid lowercase even-length hex string (the share-data encoding used by
the Shamir primitive). -/
def ValidHex (l : List Char) : Prop :=
  l.length % 2 = 0 ∧ ∀ c ∈ l, isLowerHexChar c = true

instance : DecidablePred ValidHex := fun l => by
  unfold ValidHex; infer_instance

/-! ### Base64 (`Buffer.prototype.toString("base64")` / `Buffer.from(str, "base64")`) -/

/-- Character of a sextet value (standard base64 alphabet). -/
def sextetChar (n : Nat) : Char :=
  if n < 26 then Char.ofNat (65 + n)
  else if n < 52 then Char.ofNat (97 + (n - 26))
  else if n < 62 then Char.ofNat (48 + (n - 52))
  else if n = 62 then '+' else '/'

/-- Sextet value of a base64 alphabet character (`none` otherwise). -/
def sextetVal (c : Char) : Option Nat :=
  if 65 ≤ c.toNat && c.toNat ≤ 90 then some (c.toNat - 65)
  else if 97 ≤ c.toNat && c.toNat ≤ 122 then some (c.toNat - 97 + 26)
  else if 48 ≤ c.toNat && c.toNat ≤ 57 then some (c.toNat - 48 + 52)
  else if c.toNat = 43 then some 62
  else if c.toNat = 47 then some 63
  else none

/-- `Buffer.prototype.toString("base64")`: 3-byte groups to 4 characters,
with `=` padding on a 1- or 2-byte tail. -/
def b64EncodeBytes : List Nat → List Char
  | [] => []
  | [b0] =>
    [sextetChar (b0 / 4), sextetChar ((b0 % 4) * 16), '=', '=']
  | [b0, b1] =>
    [sextetChar (b0 / 4), sextetChar ((b0 % 4) * 16 + b1 / 16),
     sextetChar ((b1 % 16) * 4), '=']
  | b0 :: b1 :: b2 :: rest =>
    sextetChar (b0 / 4) :: sextetChar ((b0 % 4) * 16 + b1 / 16) ::
    sextetChar ((b1 % 16) * 4 + b2 / 64) :: sextetChar (b2 % 64) ::
    b64EncodeBytes rest

/-- `Buffer.from(str, "base64")` on well-formed input: 4-character groups
back to 3 bytes, honouring `=` padding. -/
def b64DecodeChars : List Char → List Nat
  | c0 :: c1 :: c2 :: c3 :: rest =>
    let s0 := (sextetVal c0).getD 0
    let s1 := (sextetVal c1).getD 0
    if c2 = '=' then [s0 * 4 + s1 / 16]
    else
      let s2 := (sextetVal c2).getD 0
      if c3 = '=' then [s0 * 4 + s1 / 16, (s1 % 16) * 16 + s2 / 4]
      else
        (s0 * 4 + s1 / 16) :: ((s1 % 16) * 16 + s2 / 4) ::
        ((s2 % 4) * 64 + (sextetVal c3).getD 0) :: b64DecodeChars rest
  | _ => []

/-! ## Share objects and their wire format (`src/utils/shares.ts`) -/

/-- Fixed share body length: `SHARE_LENGTH` from `src/utils/consts.ts` (the
constants module itself is only referenced by the sources; the repository's
tests pin the value to 1600). -/
def SHARE_LENGTH : Nat := 1600

/-- The `ShareObject` record of `src/utils/shares.ts`. -/
structure ShareObject where
  threshold : Nat
  bits : Nat
  id : Nat
  data : String
deriving DecidableEq

/-- `serializeShare`:
`[threshold, bits.toString(36), id.toString(16), data].join("|")`. -/
def serializeShare (s : ShareObject) : String :=
  ⟨natToDigits 10 s.threshold ++ '|' :: natToDigits 36 s.bits
    ++ '|' :: natToDigits 16 s.id ++ '|' :: s.data.data⟩

/-- The base64 body regex
`^(?:[A-Za-z0-9+/]{4})*(?:[A-Za-z0-9+/]{2}==|[A-Za-z0-9+/]{3}=)?$`. -/
def isBase64Shape : List Char → Bool
  | [] => true
  | [c1, c2, '=', '='] => isB64Char c1 && isB64Char c2
  | [c1, c2, c3, '='] => isB64Char c1 && isB64Char c2 && isB64Char c3
  | c1 :: c2 :: c3 :: c4 :: rest =>
    isB64Char c1 && isB64Char c2 && isB64Char c3 && isB64Char c4 && isBase64Shape rest
  | _ => false

/-- The `serializedShareSchema` regex `^\d+\|\d+\|\d+\|[a-zA-Z0-9+=/]*$`.
Since neither `\d` nor the final character class admits `|`, the regex
matches exactly when splitting on `|` yields four fields, the first three
being non-empty decimal-digit runs and the last drawn from the class. -/
def matchesSerializedShareRegex (l : List Char) : Bool :=
  match splitOnChar '|' l with
  | [f0, f1, f2, f3] =>
    !f0.isEmpty && f0.all isDecDigit && !f1.isEmpty && f1.all isDecDigit &&
    !f2.isEmpty && f2.all isDecDigit && f3.all isShareCharsetChar
  | _ => false

/-- The `shareObjectSchema` pipeline of `src/utils/shares.ts`, applied to the
four split fields: coerce `threshold` (min 2), parse `bits` in base 36
(range [3,20]), parse `id` in base 16 (min 1), check `data` against the
base64 regex and the fixed length, then the Galois-field refinement
`id <= 2 ** (bits - 1)`. zod aggregates the issues of all fields; only the
first failing message is materialised here (no claim depends on joining). -/
def shareObjectSchemaCheck (f0 f1 f2 f3 : List Char) : Except String ShareObject :=
  match coerceNumber f0 with
  | none => .error "Invalid type: expected number but received NaN"
  | some t =>
  if t < 2 then .error "Too small: expected number to be >=2" else
  match parseIntJS 36 f1 with
  | none => .error "Invalid type: expected number but received NaN"
  | some bits =>
  if bits < 3 then .error "Too small: expected number to be >=3" else
  if 20 < bits then .error "Too big: expected number to be <=20" else
  match parseIntJS 16 f2 with
  | none => .error "Invalid type: expected number but received NaN"
  | some n =>
  if n < 1 then .error "Too small: expected number to be >=1" else
  if !(isBase64Shape f3) then .error "Expected to have base64 for a share body" else
  if f3.length ≠ SHARE_LENGTH then
    .error "Expected to have 1600 symbols for a share body" else
  if !(n ≤ 2 ^ (bits - 1) : Bool) then .error "Expected id to be in Galois field" else
  .ok ⟨t, bits, n, ⟨f3⟩⟩

instance : DecidableEq (Except String ShareObject)
  | .ok a, .ok b =>
    if h : a = b then .isTrue (by rw [h]) else .isFalse (by simp [h])
  | .ok _, .error _ => .isFalse (by simp)
  | .error _, .ok _ => .isFalse (by simp)
  | .error a, .error b =>
    if h : a = b then .isTrue (by rw [h]) else .isFalse (by simp [h])

/-- `deserializeShare`: first validate the whole line against
`serializedShareSchema`, then split on `|` and validate the four fields
against `shareObjectSchema`. -/
def deserializeShare (input : String) : Except String ShareObject :=
  if !(matchesSerializedShareRegex input.data) then .error "Share format is incorrect"
  else
    let fields := splitOnChar '|' input.data
    shareObjectSchemaCheck (fields.getD 0 []) (fields.getD 1 [])
      (fields.getD 2 []) (fields.getD 3 [])

/-- The failure condition claim C3 asserts for `deserializeShare`, written
from the claim text (a spec-side definition, to be compared with the code):
not exactly four pipe-delimited fields, or parsed threshold < 2, or parsed
bits outside [3,20], or parsed id outside [1, 2^(bits-1)], or data not
base64 of the fixed length — parsing each field as the code does (threshold
decimal, bits base36, id hex; an unparsable field counts as failure). -/
def specShareFailureCond (input : String) : Bool :=
  let fields := splitOnChar '|' input.data
  decide (fields.length ≠ 4) ||
  (match coerceNumber (fields.getD 0 []) with
   | none => true
   | some t => decide (t < 2)) ||
  (match parseIntJS 36 (fields.getD 1 []) with
   | none => true
   | some b => decide (b < 3) || decide (20 < b)) ||
  (match parseIntJS 36 (fields.getD 1 []), parseIntJS 16 (fields.getD 2 []) with
   | some b, some n => decide (n < 1) || decide (2 ^ (b - 1) < n)
   | _, _ => true) ||
  !(isBase64Shape (fields.getD 3 []) && decide ((fields.getD 3 []).length = SHARE_LENGTH))

/-! ## The decrypt-face share-collection state machine (`src/faces/decrypt.tsx`) -/

/-- A JavaScript `Error` as this embedding sees it: the optional `code`
property checked by the `catch` blocks, plus the message. -/
structure JsError where
  code : Option String
  message : String
deriving DecidableEq

instance {ε α : Type} [DecidableEq ε] [DecidableEq α] : DecidableEq (Except ε α)
  | .ok a, .ok b =>
    if h : a = b then .isTrue (by rw [h]) else .isFalse (by simp [h])
  | .ok _, .error _ => .isFalse (by simp)
  | .error _, .ok _ => .isFalse (by simp)
  | .error a, .error b =>
    if h : a = b then .isTrue (by rw [h]) else .isFalse (by simp [h])

/-- The `Stage` union of the decrypt face: `input` carries the collected
shares, the current slot index and the adopted threshold (`-1` while unset,
hence `Int`). -/
inductive Stage where
  | input (shares : List ShareObject) (index : Nat) (threshold : Int)
  | result (result : String)
  | error (message : String)
deriving DecidableEq

/-- `getDecryptedText` of the decrypt face, with the crypto calls abstracted:
`combineParse shares` stands for
`parsePrivateKey(Buffer.from(combineShares(shares), "hex"))` (exceptions as
`Except.error`), `decryptFn` for `decryptText` under the already-parsed
envelope. The inner catch turns `ERR_OSSL*` decrypt errors into an error
stage; the outer catch turns `ERR_OSSL_UNSUPPORTED` (bad key material) into
the combine-failure stage; anything else is re-thrown (outer `.error`). -/
def getDecryptedText {K : Type} (combineParse : List ShareObject → Except JsError K)
    (decryptFn : K → Except JsError String)
    (shares : List ShareObject) : Except JsError Stage :=
  let body : Except JsError Stage :=
    match combineParse shares with
    | .error e => .error e
    | .ok key =>
      match decryptFn key with
      | .ok text => .ok (.result text)
      | .error e =>
        match e.code with
        | some c =>
          if c.startsWith "ERR_OSSL" then
            .ok (.error ("Can't decrypt text, probably text is corrupt (" ++ c ++ ")"))
          else .error e
        | none => .error e
  match body with
  | .ok st => .ok st
  | .error e =>
    if e.code = some "ERR_OSSL_UNSUPPORTED" then
      .ok (.error "Can't combine shares, probably shares are corrupted")
    else .error e

/-- `onShareInput` of the decrypt face: adopt the first threshold, fail the
session on a mismatching one, insert the share at the current slot, and
hand the list to `getDecryptedText` when the slot was the last one. -/
def onShareInput {K : Type} (combineParse : List ShareObject → Except JsError K)
    (decryptFn : K → Except JsError String)
    (share : ShareObject) : Stage → Except JsError Stage
  | .result r => .ok (.result r)
  | .error m => .ok (.error m)
  | .input shares index threshold =>
    let nextThreshold : Int :=
      if threshold = -1 then (share.threshold : Int) else threshold
    if threshold ≠ -1 ∧ (share.threshold : Int) ≠ nextThreshold then
      .ok (.error ("Expected all shares to have the same threshold, got "
        ++ toString nextThreshold ++ " and " ++ toString (share.threshold : Int)))
    else
      let nextShares := shares.take index ++ share :: shares.drop (index + 1)
      if (index : Int) = nextThreshold - 1 then
        getDecryptedText combineParse decryptFn nextShares
      else .ok (.input nextShares (index + 1) nextThreshold)

/-- `safeParseShare` of the decrypt face: the input must contain exactly
three `|` characters, then `deserializeShare` runs. -/
def safeParseShare (input : String) : Except String ShareObject :=
  if input.data.count '|' ≠ 3 then .error "Share format is incorrect"
  else deserializeShare input

/-- One Enter key-press in `HiddenInput` while the decrypt face shows the
given stage: a parse failure only sets the input-local error text and never
calls `onShareInput`, so the stage is untouched; a parsed share is forwarded
to `onShareInput`. -/
def hiddenInputStep {K : Type} (combineParse : List ShareObject → Except JsError K)
    (decryptFn : K → Except JsError String)
    (input : String) (stage : Stage) : Except JsError Stage :=
  match safeParseShare input with
  | .error _ => .ok stage
  | .ok share => onShareInput combineParse decryptFn share stage

/-- A combine/parse pipeline that always fails as Node does on bytes that do
not form a valid PKCS#1 key (`ERR_OSSL_UNSUPPORTED`), used to instantiate
witnesses. -/
def failingCombineParse : List ShareObject → Except JsError Unit :=
  fun _ => .error ⟨some "ERR_OSSL_UNSUPPORTED", "error:0308010C"⟩

/-- A decrypt stub that fails without an error code, used to instantiate
witnesses. -/
def stubDecrypt : Unit → Except JsError String :=
  fun _ => .error ⟨none, ""⟩

/-! ## Encrypted envelopes (`src/utils/crypto.ts`) -/

/-- Keep-set of `sanitizeBase64` (`[A-Za-z0-9=+|/]`). Modelled from the
spec: the encoding module (`src/utils/encoding.ts`) is referenced by the
sources but not vendored; §4.1 defines sanitization as stripping every
character outside this set. -/
def isSanitizeKeepChar (c : Char) : Bool :=
  isShareCharsetChar c || c.toNat = 124

/-- Modelled from the spec: `sanitizeBase64` of the missing
`src/utils/encoding.ts`, stripping every character outside `[A-Za-z0-9=+|/]`. -/
def sanitizeBase64 (s : String) : String :=
  ⟨s.data.filter isSanitizeKeepChar⟩

/-- `initVectorBytes` of `src/utils/crypto.ts`. -/
def initVectorBytes : Nat := 16

/-- `authTagBytes` of `src/utils/crypto.ts`. -/
def authTagBytes : Nat := 16

/-- `symmetricEncryptionBytes` of `src/utils/crypto.ts`. -/
def symmetricEncryptionBytes : Nat := 256

/-- `getBase64ByteLength`: `Math.ceil(initialBytes / 3) * 4`. -/
def getBase64ByteLength (initialBytes : Nat) : Nat :=
  ((initialBytes + 2) / 3) * 4

/-- The deserialized envelope (`EncryptedData` in `src/utils/crypto.ts`). -/
structure EncryptedData where
  authTag : String
  initVector : String
  encryptedText : String
  encryptedAesKey : String
deriving DecidableEq

/-- `brandingTag` of `src/utils/crypto.ts`. -/
def brandingTag : String := "sss-enc"

/-- Per-segment whitespace removal (`element.replaceAll(/\s/g, "")`). -/
def stripWhitespaceChars (l : List Char) : List Char :=
  l.filter (fun c => !c.isWhitespace)

/-- `deserializeEncryptedData`: split on `|`, strip whitespace per segment,
then check the branding tag first and each field in order. (`!tag` and
`tag !== brandingTag` collapse into one inequality: the empty segment
standing in for a missing one also differs from the tag.) -/
def deserializeEncryptedData (encryptedBox : String) : Except String EncryptedData :=
  let parts := (splitOnChar '|' encryptedBox.data).map stripWhitespaceChars
  let tag := parts.getD 0 []
  let initVector := parts.getD 1 []
  let authTag := parts.getD 2 []
  let encryptedAesKey := parts.getD 3 []
  let encryptedText := parts.getD 4 []
  let rest := parts.drop 5
  if tag ≠ brandingTag.data then
    .error "Data is invalid, expected data with \"sss-enc\" prefix."
  else if initVector.isEmpty then
    .error "No initial vector on decryption."
  else if initVector.length ≠ getBase64ByteLength initVectorBytes then
    .error ("Initial vector has to have length of "
      ++ toString (getBase64ByteLength initVectorBytes) ++ " bytes.")
  else if authTag.isEmpty then
    .error "No auth tag on decryption."
  else if authTag.length ≠ getBase64ByteLength authTagBytes then
    .error ("Auth tag has to have length of "
      ++ toString (getBase64ByteLength authTagBytes) ++ " bytes.")
  else if encryptedAesKey.isEmpty then
    .error "No RSA encrypted key on decryption."
  else if encryptedAesKey.length ≠ getBase64ByteLength symmetricEncryptionBytes then
    .error ("Encrypted AES key has to have length of "
      ++ toString (getBase64ByteLength symmetricEncryptionBytes) ++ " bytes.")
  else if encryptedText.isEmpty then
    .error "No text to decrypt on decryption."
  else if rest.length > 0 then
    .error "Extra data on decryption."
  else
    .ok ⟨sanitizeBase64 ⟨authTag⟩, sanitizeBase64 ⟨initVector⟩,
      sanitizeBase64 ⟨encryptedText⟩, sanitizeBase64 ⟨encryptedAesKey⟩⟩

/-! ## The Shamir primitive, the key handling, and the converters glue
(`src/utils/shares.ts`, `src/utils/converters.ts`, `src/utils/crypto.ts`)

`secrets.js` and `node:crypto` are external collaborators; the spec (§1)
treats them as black boxes. They are modelled as structures of operations,
and the behaviour the repository relies on is stated as separate contract
structures discharged by concrete instances in the witnesses. -/

/-- `SharesOptions` of `src/utils/shares.ts`. -/
structure SharesOptions where
  threshold : Nat
  shares : Nat

/-- What `secrets.extractShareComponents` returns for a raw share string
(`bits`, `id`, and the hex share body). -/
structure RawShareComponents where
  bits : Nat
  id : Nat
  dataHex : String
deriving DecidableEq

/-- The black-box Shamir primitive (`secrets.js`) as used by
`src/utils/shares.ts`: `share`(secretHex, numShares, threshold),
`combine`, `newShare`, `extractShareComponents` and
`_constructPublicShareString`. -/
structure SSSModel (Raw : Type) where
  share : String → Nat → Nat → List Raw
  combine : List Raw → String
  newShare : Nat → List Raw → Raw
  extract : Raw → RawShareComponents
  construct : Nat → Nat → String → Raw

/-- The contract of the primitive that the repository relies on: rebuilding
a produced share from its extracted components is the identity, extracted
share bodies are valid even-length lowercase hex, and combining any
`k`-sublist of a `k`-of-`n` split returns the secret. -/
structure SSSContracts {Raw : Type} (S : SSSModel Raw) : Prop where
  extract_construct : ∀ hex n k r, ValidHex hex.data → r ∈ S.share hex n k →
    S.construct (S.extract r).bits (S.extract r).id (S.extract r).dataHex = r
  extract_hex : ∀ hex n k r, ValidHex hex.data → r ∈ S.share hex n k →
    ValidHex (S.extract r).dataHex.data
  combine_sublist : ∀ hex n k, ValidHex hex.data → 2 ≤ k → k < n →
    ∀ raws, List.Sublist raws (S.share hex n k) → raws.length = k →
      S.combine raws = hex

/-- `serializeShareSecret`: base64 share body back to hex, then
`_constructPublicShareString`. -/
def serializeShareSecret {Raw : Type} (S : SSSModel Raw) (s : ShareObject) : Raw :=
  S.construct s.bits s.id ⟨bytesToHex (b64DecodeChars s.data.data)⟩

/-- `deserializeShareSecret`: `extractShareComponents`, hex body to base64,
threshold attached from the caller. -/
def deserializeShareSecret {Raw : Type} (S : SSSModel Raw) (r : Raw)
    (threshold : Nat) : ShareObject :=
  ⟨threshold, (S.extract r).bits, (S.extract r).id,
    ⟨b64EncodeBytes (hexToBytes (S.extract r).dataHex.data)⟩⟩

/-- `createShares` of `src/utils/shares.ts`. -/
def createShares {Raw : Type} (S : SSSModel Raw) (message : String)
    (options : SharesOptions) : List ShareObject :=
  (S.share message options.shares options.threshold).map
    (fun r => deserializeShareSecret S r options.threshold)

/-- `combineShares` of `src/utils/shares.ts`. -/
def combineShares {Raw : Type} (S : SSSModel Raw)
    (shares : List ShareObject) : String :=
  S.combine (shares.map (serializeShareSecret S))

/-- `addShare` of `src/utils/shares.ts`: derives a new share and attaches
`shares[0].threshold`. Reading element 0 of an empty list fails in
JavaScript (`undefined.threshold` throws), modelled by `Option`. -/
def addShare {Raw : Type} (S : SSSModel Raw) (n : Nat)
    (shares : List ShareObject) : Option ShareObject :=
  match shares.head? with
  | none => none
  | some s0 =>
    some (deserializeShareSecret S
      (S.newShare n (shares.map (serializeShareSecret S))) s0.threshold)

/-- The private-key handling of `node:crypto` used by the converters:
`keyToHex` (canonical binary export, hex-encoded — from the referenced but
not vendored `src/utils/encoding.ts`, defined by spec §4.2) and
`parsePrivateKey` (PKCS#1 DER import). -/
structure KeyModel (Priv : Type) where
  keyToHex : Priv → String
  parsePrivateKey : List Nat → Except JsError Priv

/-- The key-handling contract: importing the hex-decoded export returns the
key, and exports are valid hex. -/
structure KeyContracts {Priv : Type} (K : KeyModel Priv) : Prop where
  parse_keyToHex : ∀ p, K.parsePrivateKey (hexToBytes (K.keyToHex p).data) = .ok p
  keyToHex_hex : ∀ p, ValidHex (K.keyToHex p).data

/-- `sharesToPrivateKey` of `src/utils/converters.ts`: combine, hex-decode,
import; an `ERR_OSSL_UNSUPPORTED` import failure becomes the
combine-failure error, anything else is re-thrown. -/
def sharesToPrivateKey {Raw Priv : Type} (S : SSSModel Raw) (K : KeyModel Priv)
    (shares : List ShareObject) : Except JsError Priv :=
  match K.parsePrivateKey (hexToBytes (combineShares S shares).data) with
  | .ok p => .ok p
  | .error e =>
    if e.code = some "ERR_OSSL_UNSUPPORTED" then
      .error ⟨none, "Can't combine shares, probably shares are corrupted"⟩
    else .error e

/-- `privateKeyToShares` of `src/utils/converters.ts`. -/
def privateKeyToShares {Raw Priv : Type} (S : SSSModel Raw) (K : KeyModel Priv)
    (p : Priv) (options : SharesOptions) : List ShareObject :=
  createShares S (K.keyToHex p) options

/-- `getNewShare` of `src/faces/add-share.tsx`: verify by reconstructing the
private key (result discarded, exceptions propagate), then derive the next
share at `max(ids) + 1`. -/
def getNewShare {Raw Priv : Type} (S : SSSModel Raw) (K : KeyModel Priv)
    (shares : List ShareObject) : Except JsError ShareObject :=
  match sharesToPrivateKey S K shares with
  | .error e => .error e
  | .ok _ =>
    match addShare S (shares.foldl (fun acc s => max acc s.id) 0 + 1) shares with
    | some s => .ok s
    | none => .error ⟨none, "TypeError"⟩

/-- The asymmetric layer of `node:crypto` (`publicEncrypt`/`privateDecrypt`
with RSA-OAEP/SHA-256). OAEP blinding randomness is internal to the box:
one sampled execution is modelled as a function of the message. `paired`
relates a public key to its private counterpart. -/
structure AsymModel (Pub Priv : Type) where
  pubEncrypt : Pub → List Nat → List Nat
  privDecrypt : Priv → List Nat → Except JsError (List Nat)
  paired : Pub → Priv → Prop

/-- Correctness contract: decryption under the paired key recovers the
message, and ciphertexts are byte lists. -/
structure AsymContracts {Pub Priv : Type} (A : AsymModel Pub Priv) : Prop where
  decrypt_encrypt : ∀ pub priv m, A.paired pub priv → ValidBytes m →
    A.privDecrypt priv (A.pubEncrypt pub m) = .ok m
  encrypt_bytes : ∀ pub m, ValidBytes m → ValidBytes (A.pubEncrypt pub m)

/-- Error-shape contract (claim C8): node RSA decryption failures carry an
`ERR_OSSL*` code — the repository tests pin this
(`ERR_OSSL_RSA_OAEP_DECODING_ERROR` et al.). -/
structure AsymErrorShape {Pub Priv : Type} (A : AsymModel Pub Priv) : Prop where
  error_ossl : ∀ priv c e, A.privDecrypt priv c = .error e →
    ∃ s, e.code = some s ∧ s.startsWith "ERR_OSSL" = true

/-- The symmetric layer (`aes-256-gcm` via `createCipheriv` /
`createDecipheriv`): `encrypt key iv plaintext = (ciphertext, authTag)`. -/
structure SymModel where
  encrypt : List Nat → List Nat → String → List Nat × List Nat
  decrypt : List Nat → List Nat → List Nat → List Nat → Except JsError String

/-- Correctness contract: authenticated decryption with the matching key,
IV and tag recovers the plaintext; outputs are byte lists. -/
structure SymContracts (M : SymModel) : Prop where
  decrypt_encrypt : ∀ key iv m,
    M.decrypt key iv (M.encrypt key iv m).1 (M.encrypt key iv m).2 = .ok m
  ct_bytes : ∀ key iv m, ValidBytes (M.encrypt key iv m).1
  tag_bytes : ∀ key iv m, ValidBytes (M.encrypt key iv m).2

/-- Error-shape contract (claim C8): a GCM authentication failure raises the
code-less "Unsupported state or unable to authenticate data" error — the
shape the decrypt face matches on, pinned by the repository tests. -/
structure SymAuthErrorShape (M : SymModel) : Prop where
  auth_error : ∀ key iv ct tag e, M.decrypt key iv ct tag = .error e →
    e = ⟨none, "Unsupported state or unable to authenticate data"⟩

/-- `encryptText` of `src/utils/crypto.ts` with the two `randomBytes` draws
(symmetric key, IV) passed explicitly: RSA-wrap the symmetric key, AES-GCM
encrypt the payload, base64 every binary field. -/
def encryptText {Pub Priv : Type} (A : AsymModel Pub Priv) (M : SymModel)
    (dataToEncrypt : String) (pub : Pub)
    (symmetricKey initVector : List Nat) : EncryptedData :=
  ⟨⟨b64EncodeBytes (M.encrypt symmetricKey initVector dataToEncrypt).2⟩,
   ⟨b64EncodeBytes initVector⟩,
   ⟨b64EncodeBytes (M.encrypt symmetricKey initVector dataToEncrypt).1⟩,
   ⟨b64EncodeBytes (A.pubEncrypt pub symmetricKey)⟩⟩

/-- `decryptText` of `src/utils/crypto.ts`: RSA-unwrap the symmetric key,
then authenticated-decrypt the payload. -/
def decryptText {Pub Priv : Type} (A : AsymModel Pub Priv) (M : SymModel)
    (env : EncryptedData) (priv : Priv) : Except JsError String :=
  match A.privDecrypt priv (b64DecodeChars env.encryptedAesKey.data) with
  | .error e => .error e
  | .ok symmetricKey =>
    M.decrypt symmetricKey (b64DecodeChars env.initVector.data)
      (b64DecodeChars env.encryptedText.data) (b64DecodeChars env.authTag.data)

/-- The decrypt-face catch chain around `decryptText` (current face):
`ERR_OSSL*` codes classify as corrupt text (the wrong-key signal), the
code-less GCM message as corrupt IV/auth-tag; anything else re-throws. -/
def classifyDecryptFailure (e : JsError) : Except JsError String :=
  if (match e.code with | some c => c.startsWith "ERR_OSSL" | none => false) then
    .error ⟨none, "Can't decrypt text, probably text is corrupt."⟩
  else if e.message = "Unsupported state or unable to authenticate data" then
    .error ⟨none, "Can't decrypt text, probably initial vector or auth tag is corrupt."⟩
  else .error e

/-- `decryptText` under the decrypt-face classification. -/
def decryptTextClassified {Pub Priv : Type} (A : AsymModel Pub Priv)
    (M : SymModel) (env : EncryptedData) (priv : Priv) : Except JsError String :=
  match decryptText A M env priv with
  | .ok t => .ok t
  | .error e => classifyDecryptFailure e

/-! ### Concrete collaborator instances for the witnesses -/

/-- A replication-based instance of the primitive interface: every share
carries the whole secret (correct, though not hiding — only the
correctness contract matters to the glue code under verification). -/
def replicationSSS : SSSModel RawShareComponents where
  share hex n _k := (List.range n).map (fun i => ⟨8, i + 1, hex⟩)
  combine raws := (raws.head?.map (fun r => r.dataHex)).getD ""
  newShare nid raws := ⟨8, nid, (raws.head?.map (fun r => r.dataHex)).getD ""⟩
  extract r := r
  construct b i h := ⟨b, i, h⟩

/-- Little-endian base-256 digits of a natural number, fuelled. -/
def natToBytesAux : Nat → Nat → List Nat
  | 0, _ => []
  | fuel + 1, n => if n = 0 then [] else n % 256 :: natToBytesAux fuel (n / 256)

/-- Little-endian base-256 digits of a natural number. -/
def natToBytesLE (n : Nat) : List Nat :=
  natToBytesAux (n + 1) n

/-- Value of little-endian base-256 digits. -/
def bytesToNatLE : List Nat → Nat
  | [] => 0
  | b :: bs => b + 256 * bytesToNatLE bs

/-- A key model over `Nat`: export is the hex of the little-endian bytes,
and the parse reads them back, never failing. -/
def natKeyModel : KeyModel Nat where
  keyToHex p := ⟨bytesToHex (natToBytesLE p)⟩
  parsePrivateKey bs := .ok (bytesToNatLE bs)

/-- The identity asymmetric instance over `Nat` key handles: encryption is
the identity, a key pairs with itself, decryption never fails. -/
def idAsym : AsymModel Nat Nat where
  pubEncrypt _ m := m
  privDecrypt _ c := .ok c
  paired pub priv := pub = priv

/-- Fixed-width (3-byte) encoding of a character list as bytes (a code
point is below `0x110000 < 2^24`). -/
def charsToBytes : List Char → List Nat
  | [] => []
  | c :: cs =>
    (c.toNat % 256) :: ((c.toNat / 256) % 256) :: (c.toNat / 65536) :: charsToBytes cs

/-- Inverse of `charsToBytes`. -/
def bytesToChars : List Nat → List Char
  | b0 :: b1 :: b2 :: rest => Char.ofNat (b0 + 256 * b1 + 65536 * b2) :: bytesToChars rest
  | _ => []

/-- A symmetric instance whose ciphertext is the byte encoding of the
plaintext, with a fixed one-byte tag. -/
def plainSym : SymModel where
  encrypt _key _iv m := (charsToBytes m.data, [0])
  decrypt _key _iv ct _tag := .ok ⟨bytesToChars ct⟩

/-- A symmetric instance that always fails authentication with the node
GCM error shape. -/
def authFailSym : SymModel where
  encrypt _key _iv _m := ([], [])
  decrypt _key _iv _ct _tag :=
    .error ⟨none, "Unsupported state or unable to authenticate data"⟩

/-- A key model whose import always fails as node does on invalid PKCS#1
bytes. -/
def failingKeyModel : KeyModel Nat where
  keyToHex _ := ""
  parsePrivateKey _ := .error ⟨some "ERR_OSSL_UNSUPPORTED", "error:0308010C"⟩

/-! ## Theorems -/

set_option maxRecDepth 40000

theorem splitOnCharAux_ne_nil (sep : Char) (l acc : List Char) :
    splitOnCharAux sep l acc ≠ [] := by
  induction l generalizing acc with
  | nil => simp [splitOnCharAux]
  | cons c rest ih =>
    simp only [splitOnCharAux]
    split
    · simp
    · exact ih (c :: acc)

theorem splitOnChar_ne_nil (sep : Char) (l : List Char) :
    splitOnChar sep l ≠ [] := splitOnCharAux_ne_nil sep l []

theorem splitOnCharAux_no_sep (sep : Char) (l acc : List Char)
    (h : ∀ c ∈ l, c ≠ sep) :
    splitOnCharAux sep l acc = [acc.reverse ++ l] := by
  induction l generalizing acc with
  | nil => simp [splitOnCharAux]
  | cons c rest ih =>
    have hc : c ≠ sep := h c (by simp)
    have hrest : ∀ x ∈ rest, x ≠ sep := fun x hx => h x (by simp [hx])
    simp [splitOnCharAux, if_neg hc, ih (c :: acc) hrest]

/-- Splitting a separator-free list yields that single segment. -/
theorem splitOnChar_of_no_sep (sep : Char) (l : List Char)
    (h : ∀ c ∈ l, c ≠ sep) :
    splitOnChar sep l = [l] := by
  simpa [splitOnChar] using splitOnCharAux_no_sep sep l [] h

theorem splitOnCharAux_append (sep : Char) (pre post acc : List Char)
    (hpre : ∀ c ∈ pre, c ≠ sep) :
    splitOnCharAux sep (pre ++ sep :: post) acc
      = (acc.reverse ++ pre) :: splitOnCharAux sep post [] := by
  induction pre generalizing acc with
  | nil => simp [splitOnCharAux]
  | cons c rest ih =>
    have hc : c ≠ sep := hpre c (by simp)
    have hrest : ∀ x ∈ rest, x ≠ sep := fun x hx => hpre x (by simp [hx])
    simp [splitOnCharAux, if_neg hc, ih (c :: acc) hrest]

/-- Splitting the concatenation `pre ++ sep :: post` when `pre` is
separator-free prepends `pre` as the first segment. -/
theorem splitOnChar_append (sep : Char) (pre post : List Char)
    (hpre : ∀ c ∈ pre, c ≠ sep) :
    splitOnChar sep (pre ++ sep :: post) = pre :: splitOnChar sep post := by
  simpa [splitOnChar] using splitOnCharAux_append sep pre post [] hpre

theorem digitValue_digitChar36 : ∀ d : Fin 36, digitValue (digitChar36 d.val) = some d.val := by
  decide

/-- `digitValue` is bounded by 36 on every character (compare down to 0). -/
theorem digitValue_getD_lt (c : Char) : (digitValue c).getD 0 < 36 := by
  unfold digitValue
  split <;> rename_i h1
  · simp only [Option.getD_some]
    simp only [Bool.and_eq_true, decide_eq_true_eq] at h1
    omega
  · split <;> rename_i h2
    · simp only [Option.getD_some]
      simp only [Bool.and_eq_true, decide_eq_true_eq] at h2
      omega
    · split <;> rename_i h3
      · simp only [Option.getD_some]
        simp only [Bool.and_eq_true, decide_eq_true_eq] at h3
        omega
      · simp

/-- On a lowercase hex digit, `digitValue` is below 16. -/
theorem digitValue_getD_lt_16 (c : Char) (h : isLowerHexChar c = true) :
    (digitValue c).getD 0 < 16 := by
  simp only [isLowerHexChar, Bool.or_eq_true, Bool.and_eq_true, decide_eq_true_eq] at h
  rcases h with h | h
  · have hv : digitValue c = some (c.toNat - 48) := by
      simp [digitValue, h.1, h.2]
    rw [hv]; simp only [Option.getD_some]; omega
  · have hv : digitValue c = some (c.toNat - 97 + 10) := by
      have hno : (48 ≤ c.toNat && c.toNat ≤ 57) = false := by
        have hn : ¬ (48 ≤ c.toNat ∧ c.toNat ≤ 57) := by omega
        simpa using hn
      have hyes : (97 ≤ c.toNat && c.toNat ≤ 122) = true := by
        simp only [Bool.and_eq_true, decide_eq_true_eq]; omega
      simp [digitValue, hno, hyes]
    rw [hv]; simp only [Option.getD_some]; omega

theorem digitChar36_digitValue (c : Char) (h : isLowerHexChar c = true) :
    digitChar36 ((digitValue c).getD 0) = c := by
  simp only [isLowerHexChar, Bool.or_eq_true, Bool.and_eq_true, decide_eq_true_eq] at h
  rcases h with h | h
  · have hv : digitValue c = some (c.toNat - 48) := by
      simp [digitValue, h.1, h.2]
    rw [hv]
    simp only [Option.getD_some, digitChar36, if_pos (by omega : c.toNat - 48 < 10)]
    rw [show 48 + (c.toNat - 48) = c.toNat by omega, Char.ofNat_toNat]
  · have hv : digitValue c = some (c.toNat - 97 + 10) := by
      have hno : (48 ≤ c.toNat && c.toNat ≤ 57) = false := by
        have hn : ¬ (48 ≤ c.toNat ∧ c.toNat ≤ 57) := by omega
        simpa using hn
      have hyes : (97 ≤ c.toNat && c.toNat ≤ 122) = true := by
        simp only [Bool.and_eq_true, decide_eq_true_eq]; omega
      simp [digitValue, hno, hyes]
    rw [hv]
    simp only [Option.getD_some, digitChar36, if_neg (by omega : ¬ c.toNat - 97 + 10 < 10)]
    rw [show 97 + (c.toNat - 97 + 10 - 10) = c.toNat by omega, Char.ofNat_toNat]

theorem hexToBytes_bytesToHex (bs : List Nat) (h : ValidBytes bs) :
    hexToBytes (bytesToHex bs) = bs := by
  induction bs with
  | nil => rfl
  | cons b rest ih =>
    have hb : b < 256 := h b (by simp)
    have hrest : ValidBytes rest := fun x hx => h x (by simp [hx])
    have h1 := digitValue_digitChar36 ⟨b / 16, by omega⟩
    have h2 := digitValue_digitChar36 ⟨b % 16, by omega⟩
    simp only [bytesToHex, hexToBytes, h1, h2, Option.getD_some, ih hrest]
    congr 1
    omega

theorem bytesToHex_hexToBytes (l : List Char) (h : ValidHex l) :
    bytesToHex (hexToBytes l) = l := by
  obtain ⟨heven, hchars⟩ := h
  induction l using hexToBytes.induct with
  | case1 => rfl
  | case2 c => simp at heven
  | case3 c1 c2 rest ih =>
    have hc1 : isLowerHexChar c1 = true := hchars c1 (by simp)
    have hc2 : isLowerHexChar c2 = true := hchars c2 (by simp)
    have hv1 := digitValue_getD_lt_16 c1 hc1
    have hv2 := digitValue_getD_lt_16 c2 hc2
    have hdiv : ((digitValue c1).getD 0 * 16 + (digitValue c2).getD 0) / 16
        = (digitValue c1).getD 0 := by omega
    have hmod : ((digitValue c1).getD 0 * 16 + (digitValue c2).getD 0) % 16
        = (digitValue c2).getD 0 := by omega
    have hrest : rest.length % 2 = 0 := by
      simp only [List.length_cons] at heven; omega
    have htail := ih hrest (fun c hc => hchars c (by simp [hc]))
    simp only [hexToBytes, bytesToHex, hdiv, hmod,
      digitChar36_digitValue c1 hc1, digitChar36_digitValue c2 hc2, htail]

/-- Bytes produced by `hexToBytes` on a hex-digit string are valid. -/
theorem validBytes_hexToBytes (l : List Char)
    (h : ∀ c ∈ l, isLowerHexChar c = true) : ValidBytes (hexToBytes l) := by
  induction l using hexToBytes.induct with
  | case1 => intro b hb; simp [hexToBytes] at hb
  | case2 c => intro b hb; simp [hexToBytes] at hb
  | case3 c1 c2 rest ih =>
    intro b hb
    simp only [hexToBytes, List.mem_cons] at hb
    rcases hb with hb | hb
    · have hv1 := digitValue_getD_lt_16 c1 (h c1 (by simp))
      have hv2 := digitValue_getD_lt_16 c2 (h c2 (by simp))
      omega
    · exact ih (fun c hc => h c (by simp [hc])) b hb

theorem sextetVal_sextetChar : ∀ n : Fin 64, sextetVal (sextetChar n.val) = some n.val := by
  decide

theorem sextetChar_ne_eq : ∀ n : Fin 64, sextetChar n.val ≠ '=' := by
  decide

theorem b64_decode_encode (bs : List Nat) (h : ValidBytes bs) :
    b64DecodeChars (b64EncodeBytes bs) = bs := by
  induction bs using b64EncodeBytes.induct with
  | case1 => rfl
  | case2 b0 =>
    have hb0 : b0 < 256 := h b0 (by simp)
    have e0 := sextetVal_sextetChar ⟨b0 / 4, by omega⟩
    have e1 := sextetVal_sextetChar ⟨(b0 % 4) * 16, by omega⟩
    simp only [b64EncodeBytes, b64DecodeChars, if_pos rfl, if_true, e0, e1,
      Option.getD_some, List.cons.injEq, and_true]
    omega
  | case3 b0 b1 =>
    have hb0 : b0 < 256 := h b0 (by simp)
    have hb1 : b1 < 256 := h b1 (by simp)
    have e0 := sextetVal_sextetChar ⟨b0 / 4, by omega⟩
    have e1 := sextetVal_sextetChar ⟨(b0 % 4) * 16 + b1 / 16, by omega⟩
    have e2 := sextetVal_sextetChar ⟨(b1 % 16) * 4, by omega⟩
    have hne := sextetChar_ne_eq ⟨(b1 % 16) * 4, by omega⟩
    simp only [b64EncodeBytes, b64DecodeChars, if_neg hne, if_pos rfl, if_true, e0, e1,
      e2, Option.getD_some, List.cons.injEq, and_true]
    exact ⟨by omega, by omega⟩
  | case4 b0 b1 b2 rest ih =>
    have hb0 : b0 < 256 := h b0 (by simp)
    have hb1 : b1 < 256 := h b1 (by simp)
    have hb2 : b2 < 256 := h b2 (by simp)
    have hrest : ValidBytes rest := fun x hx => h x (by simp [hx])
    have e0 := sextetVal_sextetChar ⟨b0 / 4, by omega⟩
    have e1 := sextetVal_sextetChar ⟨(b0 % 4) * 16 + b1 / 16, by omega⟩
    have e2 := sextetVal_sextetChar ⟨(b1 % 16) * 4 + b2 / 64, by omega⟩
    have e3 := sextetVal_sextetChar ⟨b2 % 64, by omega⟩
    have hne2 := sextetChar_ne_eq ⟨(b1 % 16) * 4 + b2 / 64, by omega⟩
    have hne3 := sextetChar_ne_eq ⟨b2 % 64, by omega⟩
    simp only [b64EncodeBytes, b64DecodeChars, if_neg hne2, if_neg hne3, e0, e1, e2, e3,
      Option.getD_some, ih hrest, List.cons.injEq, and_true]
    exact ⟨by omega, by omega, by omega⟩

/-! ### Parsing lemmas for the share schema -/

/-- A decimal-digit run parses in any base ≥ 10 to its value in that base
(every decimal digit is a valid digit of such a base). -/
theorem parseIntJS_all_decDigits (base : Nat) (hb : 10 ≤ base)
    (l : List Char) (hne : l ≠ []) (hd : l.all isDecDigit = true) :
    parseIntJS base l = some (digitsVal base l) := by
  have hall : ∀ c ∈ l, decide (((digitValue c).getD base) < base) = true := by
    intro c hc
    have h1 : isDecDigit c = true := by
      rw [List.all_eq_true] at hd
      exact hd c hc
    simp only [isDecDigit, Bool.and_eq_true, decide_eq_true_eq] at h1
    have hv : digitValue c = some (c.toNat - 48) := by
      simp [digitValue, h1.1, h1.2]
    rw [hv]
    simp only [Option.getD_some, decide_eq_true_eq]
    omega
  have htake : l.takeWhile (fun c => ((digitValue c).getD base) < base) = l :=
    List.takeWhile_eq_self_iff.mpr hall
  simp only [parseIntJS, htake]
  rw [if_neg (by simpa [List.isEmpty_iff] using hne)]

theorem coerceNumber_all_decDigits (l : List Char) (hne : l ≠ [])
    (hd : l.all isDecDigit = true) :
    coerceNumber l = some (digitsVal 10 l) := by
  simp only [coerceNumber, hd, if_true]
  rw [if_neg (by simpa [List.isEmpty_iff] using hne)]

/-- Base64-regex characters lie inside the first-stage regex charset. -/
theorem isB64Char_isShareCharsetChar (c : Char) (h : isB64Char c = true) :
    isShareCharsetChar c = true := by
  simp only [isB64Char, Bool.or_eq_true, Bool.and_eq_true, decide_eq_true_eq] at h
  simp only [isShareCharsetChar, Bool.or_eq_true, Bool.and_eq_true, decide_eq_true_eq]
  omega

/-- Anything matching the base64 body regex is drawn from the first-stage
regex charset. -/
theorem charset_padChar : isShareCharsetChar '=' = true := by decide

theorem isBase64Shape_charset (l : List Char) (h : isBase64Shape l = true) :
    l.all isShareCharsetChar = true := by
  induction l using isBase64Shape.induct with
  | case1 => rfl
  | case2 c1 c2 =>
    simp only [isBase64Shape, Bool.and_eq_true] at h
    simp [isB64Char_isShareCharsetChar c1 h.1, isB64Char_isShareCharsetChar c2 h.2,
      charset_padChar]
  | case3 c1 c2 c3 =>
    simp only [isBase64Shape, Bool.and_eq_true] at h
    simp [isB64Char_isShareCharsetChar c1 h.1.1, isB64Char_isShareCharsetChar c2 h.1.2,
      isB64Char_isShareCharsetChar c3 h.2, charset_padChar]
  | case4 c1 c2 c3 c4 rest h1 h2 ih =>
    simp only [isBase64Shape, Bool.and_eq_true] at h
    obtain ⟨⟨⟨⟨hc1, hc2⟩, hc3⟩, hc4⟩, hrest⟩ := h
    simp [isB64Char_isShareCharsetChar c1 hc1, isB64Char_isShareCharsetChar c2 hc2,
      isB64Char_isShareCharsetChar c3 hc3, isB64Char_isShareCharsetChar c4 hc4,
      ih hrest]
  | case5 => simp_all [isBase64Shape]

/-- Success of the second-stage schema, given that the three numeric fields
parse. -/
theorem shareObjectSchemaCheck_isOk_iff (f0 f1 f2 f3 : List Char)
    (t b n : Nat)
    (h0 : coerceNumber f0 = some t)
    (h1 : parseIntJS 36 f1 = some b)
    (h2 : parseIntJS 16 f2 = some n) :
    (shareObjectSchemaCheck f0 f1 f2 f3).isOk = true ↔
      (2 ≤ t ∧ 3 ≤ b ∧ b ≤ 20 ∧ 1 ≤ n ∧ isBase64Shape f3 = true
        ∧ f3.length = SHARE_LENGTH ∧ n ≤ 2 ^ (b - 1)) := by
  simp only [shareObjectSchemaCheck, h0, h1, h2]
  split_ifs with hc1 hc2 hc3 hc4 hc5 hc6 hc7
  · exact iff_of_false (by simp [Except.isOk, Except.toBool])
      (by rintro ⟨hh, -⟩; omega)
  · exact iff_of_false (by simp [Except.isOk, Except.toBool])
      (by rintro ⟨-, hh, -⟩; omega)
  · exact iff_of_false (by simp [Except.isOk, Except.toBool])
      (by rintro ⟨-, -, hh, -⟩; omega)
  · exact iff_of_false (by simp [Except.isOk, Except.toBool])
      (by rintro ⟨-, -, -, hh, -⟩; omega)
  · exact iff_of_false (by simp [Except.isOk, Except.toBool])
      (by rintro ⟨-, -, -, -, hh, -⟩; simp_all)
  · exact iff_of_false (by simp [Except.isOk, Except.toBool])
      (by rintro ⟨-, -, -, -, -, hh, -⟩; exact hc6 hh)
  · exact iff_of_false (by simp [Except.isOk, Except.toBool])
      (by rintro ⟨-, -, -, -, -, -, hh⟩; simp_all)
  · refine iff_of_true (by simp [Except.isOk, Except.toBool])
      ⟨by omega, by omega, by omega, by omega, by simp_all, by
        simpa using hc6, by simp_all⟩

/-- The first-stage regex in terms of the split fields. -/
theorem matchesSerializedShareRegex_four (f0 f1 f2 f3 : List Char)
    (l : List Char) (hs : splitOnChar '|' l = [f0, f1, f2, f3]) :
    matchesSerializedShareRegex l =
      (!f0.isEmpty && f0.all isDecDigit && !f1.isEmpty && f1.all isDecDigit &&
       !f2.isEmpty && f2.all isDecDigit && f3.all isShareCharsetChar) := by
  simp [matchesSerializedShareRegex, hs]

/-- Claim C3 (amended): `deserializeShare` succeeds exactly when splitting on
`|` yields four fields, the first three are non-empty decimal-digit runs
(the regex rejects base36/hex letters there), the coerced threshold is ≥ 2,
the base36-parsed bits lie in [3,20], the hex-parsed id lies in
[1, 2^(bits-1)], and the data field matches the base64 regex with length
`SHARE_LENGTH`. -/
theorem deserializeShare_isOk_iff (input : String) :
    (deserializeShare input).isOk = true ↔
      ((splitOnChar '|' input.data).length = 4
        ∧ ((splitOnChar '|' input.data).getD 0 []) ≠ []
        ∧ ((splitOnChar '|' input.data).getD 0 []).all isDecDigit = true
        ∧ ((splitOnChar '|' input.data).getD 1 []) ≠ []
        ∧ ((splitOnChar '|' input.data).getD 1 []).all isDecDigit = true
        ∧ ((splitOnChar '|' input.data).getD 2 []) ≠ []
        ∧ ((splitOnChar '|' input.data).getD 2 []).all isDecDigit = true
        ∧ 2 ≤ digitsVal 10 ((splitOnChar '|' input.data).getD 0 [])
        ∧ 3 ≤ digitsVal 36 ((splitOnChar '|' input.data).getD 1 [])
        ∧ digitsVal 36 ((splitOnChar '|' input.data).getD 1 []) ≤ 20
        ∧ 1 ≤ digitsVal 16 ((splitOnChar '|' input.data).getD 2 [])
        ∧ digitsVal 16 ((splitOnChar '|' input.data).getD 2 [])
            ≤ 2 ^ (digitsVal 36 ((splitOnChar '|' input.data).getD 1 []) - 1)
        ∧ isBase64Shape ((splitOnChar '|' input.data).getD 3 []) = true
        ∧ ((splitOnChar '|' input.data).getD 3 []).length = SHARE_LENGTH) := by
  rcases hs : splitOnChar '|' input.data with _ | ⟨f0, _ | ⟨f1, _ | ⟨f2, _ | ⟨f3, _ | ⟨f4, fs⟩⟩⟩⟩⟩
  · exact absurd hs (splitOnChar_ne_nil _ _)
  · have hm : matchesSerializedShareRegex input.data = false := by
      simp [matchesSerializedShareRegex, hs]
    simp [deserializeShare, hm, Except.isOk, Except.toBool, hs]
  · have hm : matchesSerializedShareRegex input.data = false := by
      simp [matchesSerializedShareRegex, hs]
    simp [deserializeShare, hm, Except.isOk, Except.toBool, hs]
  · have hm : matchesSerializedShareRegex input.data = false := by
      simp [matchesSerializedShareRegex, hs]
    simp [deserializeShare, hm, Except.isOk, Except.toBool, hs]
  · -- exactly four fields
    simp only [List.getD_cons_zero, List.getD_cons_succ, List.length_cons,
      List.length_nil]
    cases hm : matchesSerializedShareRegex input.data with
    | false =>
      have hiff := matchesSerializedShareRegex_four f0 f1 f2 f3 input.data hs
      rw [hm] at hiff
      simp only [deserializeShare, hm, Bool.not_false, if_true, Except.isOk, Except.toBool]
      constructor
      · intro hcontr; exact absurd hcontr (by simp)
      · rintro ⟨-, h0ne, h0d, h1ne, h1d, h2ne, h2d, -, -, -, -, -, hshape, -⟩
        exfalso
        have hcs : f3.all isShareCharsetChar = true := isBase64Shape_charset f3 hshape
        have hconj : (!f0.isEmpty && f0.all isDecDigit && !f1.isEmpty && f1.all isDecDigit &&
            !f2.isEmpty && f2.all isDecDigit && f3.all isShareCharsetChar) = true := by
          simp only [Bool.and_eq_true]
          refine ⟨⟨⟨⟨⟨⟨?_, h0d⟩, ?_⟩, h1d⟩, ?_⟩, h2d⟩, hcs⟩
          · simp [h0ne]
          · simp [h1ne]
          · simp [h2ne]
        rw [hconj] at hiff
        exact absurd hiff (by simp)
    | true =>
      have hiff := matchesSerializedShareRegex_four f0 f1 f2 f3 input.data hs
      rw [hm] at hiff
      have hconds : (!f0.isEmpty && f0.all isDecDigit && !f1.isEmpty && f1.all isDecDigit &&
          !f2.isEmpty && f2.all isDecDigit && f3.all isShareCharsetChar) = true := hiff.symm
      simp only [Bool.and_eq_true] at hconds
      obtain ⟨⟨⟨⟨⟨⟨h0e, h0d⟩, h1e⟩, h1d⟩, h2e⟩, h2d⟩, -⟩ := hconds
      have h0ne : f0 ≠ [] := by
        intro hcontr; rw [hcontr] at h0e; simp at h0e
      have h1ne : f1 ≠ [] := by
        intro hcontr; rw [hcontr] at h1e; simp at h1e
      have h2ne : f2 ≠ [] := by
        intro hcontr; rw [hcontr] at h2e; simp at h2e
      have hp0 := coerceNumber_all_decDigits f0 h0ne h0d
      have hp1 := parseIntJS_all_decDigits 36 (by omega) f1 h1ne h1d
      have hp2 := parseIntJS_all_decDigits 16 (by omega) f2 h2ne h2d
      have hmain : deserializeShare input = shareObjectSchemaCheck f0 f1 f2 f3 := by
        simp only [deserializeShare, hm, Bool.not_true, if_false, hs]
        simp [List.getD]
      rw [hmain,
        shareObjectSchemaCheck_isOk_iff f0 f1 f2 f3 _ _ _ hp0 hp1 hp2]
      constructor
      · rintro ⟨ht, hb1, hb2, hn1, hsh, hlen, hgal⟩
        exact ⟨by simp, h0ne, h0d, h1ne, h1d, h2ne, h2d, ht, hb1, hb2, hn1, hgal, hsh, hlen⟩
      · rintro ⟨-, -, -, -, -, -, -, ht, hb1, hb2, hn1, hgal, hsh, hlen⟩
        exact ⟨ht, hb1, hb2, hn1, hsh, hlen, hgal⟩
  · -- five or more fields
    have hm : matchesSerializedShareRegex input.data = false := by
      simp [matchesSerializedShareRegex, hs]
    simp [deserializeShare, hm, Except.isOk, Except.toBool, hs]

/-- Claim C3 (counterexample): on the input `"2|8|a|" ++ 1600 × "A"` none of
the failure conditions listed by the claim holds (4 fields, threshold 2,
bits 8, id a = 10 ∈ [1, 2^7], valid base64 data of length 1600), yet
`deserializeShare` fails: the first-stage regex only admits decimal digits
in the id field. -/
theorem C3_deserializeShare_failure_set_counterexample :
    specShareFailureCond ⟨'2' :: '|' :: '8' :: '|' :: 'a' :: '|' :: List.replicate 1600 'A'⟩
        = false
    ∧ (deserializeShare
        ⟨'2' :: '|' :: '8' :: '|' :: 'a' :: '|' :: List.replicate 1600 'A'⟩).isOk = false := by
  constructor
  · decide
  · decide

/-- Claim C2 (failing evaluation): the ShareObject with threshold 2, bits 8,
id 10 and a 1600-character base64 body is valid (all schema bounds hold),
but `deserializeShare (serializeShare s)` fails with "Share format is
incorrect": `serializeShare` writes the id in hex (`"a"`), which the
first-stage regex `^\d+\|\d+\|\d+\|...$` rejects. -/
theorem C2_share_roundtrip_fails_at_hex_id :
    (2 ≤ (⟨2, 8, 10, ⟨List.replicate 1600 'A'⟩⟩ : ShareObject).threshold
      ∧ 3 ≤ (⟨2, 8, 10, ⟨List.replicate 1600 'A'⟩⟩ : ShareObject).bits
      ∧ (⟨2, 8, 10, ⟨List.replicate 1600 'A'⟩⟩ : ShareObject).bits ≤ 20
      ∧ 1 ≤ (⟨2, 8, 10, ⟨List.replicate 1600 'A'⟩⟩ : ShareObject).id
      ∧ (⟨2, 8, 10, ⟨List.replicate 1600 'A'⟩⟩ : ShareObject).id
          ≤ 2 ^ ((⟨2, 8, 10, ⟨List.replicate 1600 'A'⟩⟩ : ShareObject).bits - 1)
      ∧ isBase64Shape (⟨2, 8, 10, ⟨List.replicate 1600 'A'⟩⟩ : ShareObject).data.data = true
      ∧ (⟨2, 8, 10, ⟨List.replicate 1600 'A'⟩⟩ : ShareObject).data.data.length = SHARE_LENGTH)
    ∧ deserializeShare (serializeShare ⟨2, 8, 10, ⟨List.replicate 1600 'A'⟩⟩)
        = Except.error "Share format is incorrect" := by
  refine ⟨⟨by decide, by decide, by decide, by decide, by decide, by decide, ?_⟩, ?_⟩
  · decide
  · decide

/-- Claim C4: in the collecting stage with an adopted threshold `t`, a share
whose threshold differs moves the session to the error stage with exactly
the message naming both values, and no share is appended (the resulting
stage carries no share list). -/
theorem C4_threshold_mismatch_fails {K : Type}
    (combineParse : List ShareObject → Except JsError K)
    (decryptFn : K → Except JsError String)
    (share : ShareObject) (shares : List ShareObject) (index : Nat) (t : Int)
    (hadopted : t ≠ -1) (hmismatch : (share.threshold : Int) ≠ t) :
    onShareInput combineParse decryptFn share (.input shares index t)
      = .ok (.error ("Expected all shares to have the same threshold, got "
          ++ toString t ++ " and " ++ toString (share.threshold : Int))) := by
  simp only [onShareInput, if_neg hadopted]
  rw [if_pos ⟨hadopted, hmismatch⟩]

/-- Claim C4 witness: thresholds 3 then 4 produce exactly
"Expected all shares to have the same threshold, got 3 and 4". -/
theorem C4_threshold_mismatch_fails_witness :
    onShareInput failingCombineParse stubDecrypt
      ⟨4, 8, 1, ""⟩ (.input [⟨3, 8, 1, ""⟩] 1 3)
      = .ok (.error "Expected all shares to have the same threshold, got 3 and 4") := by
  have h := C4_threshold_mismatch_fails failingCombineParse stubDecrypt
    ⟨4, 8, 1, ""⟩ [⟨3, 8, 1, ""⟩] 1 3 (by decide) (by decide)
  exact h.trans (by decide)

/-- Claim C5: in the collecting stage (share list filling slots 0..index-1,
no threshold mismatch), a parsed share is appended at the current slot; if
the appended list reaches the adopted threshold the stage machine hands
exactly that list to the combine/decrypt pipeline (whose combine failure or
classified decrypt failure yields the error stage with the corresponding
message); otherwise it stays collecting with the slot index advanced by
one. -/
theorem C5_append_complete_or_advance {K : Type}
    (combineParse : List ShareObject → Except JsError K)
    (decryptFn : K → Except JsError String)
    (share : ShareObject) (shares : List ShareObject) (index : Nat) (t : Int)
    (hlen : shares.length = index)
    (hok : t = -1 ∨ (share.threshold : Int) = t)
    (tAdopted : Int)
    (ht : tAdopted = if t = -1 then (share.threshold : Int) else t) :
    ((((shares ++ [share]).length : Int) = tAdopted →
        onShareInput combineParse decryptFn share (.input shares index t)
          = getDecryptedText combineParse decryptFn (shares ++ [share]))
      ∧ (((shares ++ [share]).length : Int) ≠ tAdopted →
        onShareInput combineParse decryptFn share (.input shares index t)
          = .ok (.input (shares ++ [share]) (index + 1) tAdopted))
      ∧ (∀ e, combineParse (shares ++ [share]) = .error e →
          e.code = some "ERR_OSSL_UNSUPPORTED" →
          getDecryptedText combineParse decryptFn (shares ++ [share])
            = .ok (.error "Can't combine shares, probably shares are corrupted"))
      ∧ (∀ key e c, combineParse (shares ++ [share]) = .ok key →
          decryptFn key = .error e → e.code = some c →
          c.startsWith "ERR_OSSL" = true →
          getDecryptedText combineParse decryptFn (shares ++ [share])
            = .ok (.error ("Can't decrypt text, probably text is corrupt ("
                ++ c ++ ")")))) := by
  have hnomis : ¬ (t ≠ -1 ∧ (share.threshold : Int)
      ≠ (if t = -1 then (share.threshold : Int) else t)) := by
    rcases hok with h | h
    · rintro ⟨hne, -⟩; exact hne h
    · rintro ⟨hne, hm⟩
      rw [if_neg hne] at hm
      exact hm h
  have htake : shares.take index = shares := by
    rw [← hlen]; exact List.take_length shares
  have hdrop : shares.drop (index + 1) = [] :=
    List.drop_eq_nil_of_le (by omega)
  have hlen2 : ((shares ++ [share]).length : Int) = (index : Int) + 1 := by
    simp [hlen]
  have hstep : onShareInput combineParse decryptFn share (.input shares index t)
      = (if (index : Int) = tAdopted - 1
         then getDecryptedText combineParse decryptFn (shares ++ [share])
         else .ok (.input (shares ++ [share]) (index + 1) tAdopted)) := by
    simp only [onShareInput]
    rw [if_neg hnomis, htake, hdrop, ← ht]
  refine ⟨?_, ?_, ?_, ?_⟩
  · intro hreach
    rw [hstep, if_pos (by omega)]
  · intro hnreach
    rw [hstep, if_neg (by omega)]
  · intro e hcomb hcode
    simp only [getDecryptedText, hcomb, hcode]
    simp
  · intro key e c hcomb hdec hcode hossl
    simp only [getDecryptedText, hcomb, hdec, hcode, if_pos hossl]

/-- Claim C5 witness: first share (threshold 2) appended below the
threshold leaves the machine collecting at slot 1; the pipeline clauses are
instantiated with a combine that fails with `ERR_OSSL_UNSUPPORTED`. -/
theorem C5_append_complete_or_advance_witness :
    ((((([] : List ShareObject) ++ [(⟨2, 8, 1, ""⟩ : ShareObject)]).length : Int) = (2 : Int) →
        onShareInput failingCombineParse stubDecrypt (⟨2, 8, 1, ""⟩ : ShareObject) (.input [] 0 (-1))
          = getDecryptedText failingCombineParse stubDecrypt ([] ++ [(⟨2, 8, 1, ""⟩ : ShareObject)]))
      ∧ (((([] : List ShareObject) ++ [(⟨2, 8, 1, ""⟩ : ShareObject)]).length : Int) ≠ (2 : Int) →
        onShareInput failingCombineParse stubDecrypt (⟨2, 8, 1, ""⟩ : ShareObject) (.input [] 0 (-1))
          = .ok (.input ([] ++ [(⟨2, 8, 1, ""⟩ : ShareObject)]) 1 2))
      ∧ (∀ e, failingCombineParse (([] : List ShareObject) ++ [(⟨2, 8, 1, ""⟩ : ShareObject)])
            = Except.error e →
          e.code = some "ERR_OSSL_UNSUPPORTED" →
          getDecryptedText failingCombineParse stubDecrypt ([] ++ [(⟨2, 8, 1, ""⟩ : ShareObject)])
            = .ok (.error "Can't combine shares, probably shares are corrupted"))
      ∧ (∀ key e c, failingCombineParse (([] : List ShareObject) ++ [(⟨2, 8, 1, ""⟩ : ShareObject)])
            = Except.ok key →
          stubDecrypt key = Except.error e → e.code = some c →
          c.startsWith "ERR_OSSL" = true →
          getDecryptedText failingCombineParse stubDecrypt ([] ++ [(⟨2, 8, 1, ""⟩ : ShareObject)])
            = .ok (.error ("Can't decrypt text, probably text is corrupt ("
                ++ c ++ ")")))) :=
  C5_append_complete_or_advance failingCombineParse stubDecrypt
    (⟨2, 8, 1, ""⟩ : ShareObject) [] 0 (-1) (by decide) (Or.inl (by decide)) 2 (by decide)

/-- Claim C6: an input line that fails `safeParseShare` leaves the session
exactly as it was: the stage (collected shares, slot index, adopted
threshold) is returned unchanged, so the same slot can be retried. -/
theorem C6_parse_failure_leaves_stage {K : Type}
    (combineParse : List ShareObject → Except JsError K)
    (decryptFn : K → Except JsError String)
    (input : String) (stage : Stage) (e : String)
    (hfail : safeParseShare input = .error e) :
    hiddenInputStep combineParse decryptFn input stage = .ok stage := by
  simp only [hiddenInputStep, hfail]

/-- Claim C6 witness: the malformed line "foo" leaves a mid-collection
stage untouched. -/
theorem C6_parse_failure_leaves_stage_witness :
    hiddenInputStep failingCombineParse stubDecrypt "foo"
      (.input [⟨3, 8, 1, ""⟩] 1 3)
      = .ok (.input [⟨3, 8, 1, ""⟩] 1 3) :=
  C6_parse_failure_leaves_stage failingCombineParse stubDecrypt "foo"
    (.input [⟨3, 8, 1, ""⟩] 1 3) "Share format is incorrect" (by decide)

/-- Claim C9: whenever the first pipe-delimited segment (after whitespace
stripping) is missing or differs from "sss-enc", `deserializeEncryptedData`
fails with the tag-specific message — regardless of every other field, i.e.
the tag check is decided before any other validation. -/
theorem C9_branding_tag_checked_first (s : String)
    (htag : ((splitOnChar '|' s.data).map stripWhitespaceChars).getD 0 []
      ≠ brandingTag.data) :
    deserializeEncryptedData s
      = .error "Data is invalid, expected data with \"sss-enc\" prefix." := by
  simp only [deserializeEncryptedData]
  rw [if_pos htag]

/-- Claim C9 witness: the envelope `"x|y|z|a|b"` is rejected with the
tag-specific message. -/
theorem C9_branding_tag_checked_first_witness :
    deserializeEncryptedData "x|y|z|a|b"
      = .error "Data is invalid, expected data with \"sss-enc\" prefix." :=
  C9_branding_tag_checked_first "x|y|z|a|b" (by decide)

theorem replicationSSS_contracts : SSSContracts replicationSSS := by
  constructor
  · intro hex n k r _ _
    rfl
  · intro hex n k r hhex hr
    simp only [replicationSSS, List.mem_map, List.mem_range] at hr
    obtain ⟨i, -, rfl⟩ := hr
    exact hhex
  · intro hex n k hhex h2 hkn raws hsub hlenr
    have hne : raws ≠ [] := by
      intro hcontr
      rw [hcontr] at hlenr
      simp at hlenr
      omega
    obtain ⟨r0, rest, rfl⟩ := List.exists_cons_of_ne_nil hne
    have hmem : r0 ∈ (List.range n).map
        (fun i => (⟨8, i + 1, hex⟩ : RawShareComponents)) :=
      hsub.subset (by simp)
    simp only [List.mem_map, List.mem_range] at hmem
    obtain ⟨i, -, hr0⟩ := hmem
    have hcomb : replicationSSS.combine (r0 :: rest) = r0.dataHex := rfl
    rw [hcomb, ← hr0]

theorem bytesToNatLE_natToBytesAux (fuel n : Nat) (h : n ≤ fuel) :
    bytesToNatLE (natToBytesAux fuel n) = n := by
  induction fuel generalizing n with
  | zero =>
    have : n = 0 := by omega
    simp [natToBytesAux, bytesToNatLE, this]
  | succ fuel ih =>
    by_cases hn : n = 0
    · simp [natToBytesAux, hn, bytesToNatLE]
    · have hdiv : n / 256 ≤ fuel := by
        have : n / 256 < n := Nat.div_lt_self (by omega) (by omega)
        omega
      simp only [natToBytesAux, if_neg hn, bytesToNatLE, ih (n / 256) hdiv]
      omega

theorem validBytes_natToBytesAux (fuel n : Nat) :
    ValidBytes (natToBytesAux fuel n) := by
  induction fuel generalizing n with
  | zero => intro b hb; simp [natToBytesAux] at hb
  | succ fuel ih =>
    intro b hb
    by_cases hn : n = 0
    · simp [natToBytesAux, hn] at hb
    · simp only [natToBytesAux, if_neg hn, List.mem_cons] at hb
      rcases hb with hb | hb
      · omega
      · exact ih (n / 256) b hb

theorem isLowerHexChar_digitChar36 : ∀ d : Fin 16, isLowerHexChar (digitChar36 d.val) = true := by
  decide

theorem validHex_bytesToHex (bs : List Nat) (h : ValidBytes bs) :
    ValidHex (bytesToHex bs) := by
  induction bs with
  | nil => exact ⟨rfl, by intro c hc; simp [bytesToHex] at hc⟩
  | cons b rest ih =>
    have hb : b < 256 := h b (by simp)
    have hrest : ValidBytes rest := fun x hx => h x (by simp [hx])
    obtain ⟨hlen, hchars⟩ := ih hrest
    refine ⟨by simp only [bytesToHex, List.length_cons]; omega, ?_⟩
    intro c hc
    simp only [bytesToHex, List.mem_cons] at hc
    rcases hc with rfl | hc
    · exact isLowerHexChar_digitChar36 ⟨b / 16, by omega⟩
    rcases hc with rfl | hc
    · exact isLowerHexChar_digitChar36 ⟨b % 16, by omega⟩
    · exact hchars c hc

theorem natKeyModel_contracts : KeyContracts natKeyModel := by
  constructor
  · intro p
    show Except.ok (bytesToNatLE (hexToBytes (bytesToHex (natToBytesLE p))))
      = Except.ok p
    rw [hexToBytes_bytesToHex (natToBytesLE p) (validBytes_natToBytesAux _ _),
      show natToBytesLE p = natToBytesAux (p + 1) p from rfl,
      bytesToNatLE_natToBytesAux (p + 1) p (by omega)]
  · intro p
    exact validHex_bytesToHex (natToBytesLE p) (validBytes_natToBytesAux _ _)

theorem idAsym_contracts : AsymContracts idAsym := by
  constructor
  · intro pub priv m _ _
    rfl
  · intro pub m hm
    exact hm

theorem idAsym_errorShape : AsymErrorShape idAsym := by
  constructor
  · intro priv c e h
    simp [idAsym] at h

theorem char_toNat_lt (c : Char) : c.toNat < 1114112 := by
  rcases c.valid with h | h
  · unfold Char.toNat
    omega
  · unfold Char.toNat
    omega

theorem bytesToChars_charsToBytes (cs : List Char) :
    bytesToChars (charsToBytes cs) = cs := by
  induction cs with
  | nil => rfl
  | cons c rest ih =>
    have hlt : c.toNat < 1114112 := char_toNat_lt c
    have harith : c.toNat % 256 + 256 * (c.toNat / 256 % 256)
        + 65536 * (c.toNat / 65536) = c.toNat := by omega
    simp only [charsToBytes, bytesToChars, harith, Char.ofNat_toNat, ih]

theorem validBytes_charsToBytes (cs : List Char) :
    ValidBytes (charsToBytes cs) := by
  induction cs with
  | nil => intro b hb; simp [charsToBytes] at hb
  | cons c rest ih =>
    intro b hb
    have hlt : c.toNat < 1114112 := char_toNat_lt c
    simp only [charsToBytes, List.mem_cons] at hb
    rcases hb with rfl | hb
    · omega
    rcases hb with rfl | hb
    · omega
    rcases hb with rfl | hb
    · omega
    · exact ih b hb

theorem string_mk_data (s : String) : String.mk s.data = s := by
  cases s
  rfl

theorem plainSym_contracts : SymContracts plainSym := by
  constructor
  · intro key iv m
    simp only [plainSym, bytesToChars_charsToBytes, string_mk_data]
  · intro key iv m
    exact validBytes_charsToBytes m.data
  · intro key iv m
    intro b hb
    simp only [plainSym, List.mem_cons] at hb
    rcases hb with rfl | hb
    · omega
    · simp at hb

theorem authFailSym_authErrorShape : SymAuthErrorShape authFailSym := by
  constructor
  intro key iv ct tag e h
  simp only [authFailSym] at h
  exact (Except.error.injEq _ _).mp h.symm ▸ rfl

/-- Claim C10: `addShare` reads `shares[0].threshold`, so on the empty list
it cannot return a ShareObject (the element-0 access fails); on any
non-empty list that access succeeds and a share is produced. -/
theorem C10_addShare_head_access {Raw : Type} (S : SSSModel Raw)
    (nid : Nat) (shares : List ShareObject) :
    (shares = [] → addShare S nid shares = none)
    ∧ (shares ≠ [] → ∃ r, addShare S nid shares = some r) := by
  constructor
  · rintro rfl
    rfl
  · intro hne
    obtain ⟨s0, rest, rfl⟩ := List.exists_cons_of_ne_nil hne
    exact ⟨_, rfl⟩

/-- Claim C10 witness: the empty and a singleton share list under the
replication instance. -/
theorem C10_addShare_head_access_witness :
    (addShare replicationSSS 4 [] = none)
    ∧ (∃ r, addShare replicationSSS 4 [(⟨2, 8, 1, "AA=="⟩ : ShareObject)] = some r) :=
  ⟨(C10_addShare_head_access replicationSSS 4 []).1 rfl,
   (C10_addShare_head_access replicationSSS 4 [(⟨2, 8, 1, "AA=="⟩ : ShareObject)]).2
     (by simp)⟩

/-- Claim C7: `getNewShare` first reconstructs the private key from the
given shares; when that import fails with `ERR_OSSL_UNSUPPORTED` (bytes not
forming a structurally valid key), the operation surfaces exactly the
combine-failure error and returns no share. -/
theorem C7_addShare_surfaces_combine_failure {Raw Priv : Type}
    (S : SSSModel Raw) (K : KeyModel Priv) (shares : List ShareObject)
    (e : JsError)
    (hparse : K.parsePrivateKey (hexToBytes (combineShares S shares).data)
      = .error e)
    (hcode : e.code = some "ERR_OSSL_UNSUPPORTED") :
    getNewShare S K shares
      = .error ⟨none, "Can't combine shares, probably shares are corrupted"⟩ := by
  simp only [getNewShare, sharesToPrivateKey, hparse, hcode, if_pos rfl, if_true]

/-- Claim C7 witness: a key model whose import always fails with
`ERR_OSSL_UNSUPPORTED`. -/
theorem C7_addShare_surfaces_combine_failure_witness :
    getNewShare replicationSSS failingKeyModel
      [(⟨2, 8, 1, "AA=="⟩ : ShareObject), (⟨2, 8, 2, "AA=="⟩ : ShareObject)]
      = .error ⟨none, "Can't combine shares, probably shares are corrupted"⟩ :=
  C7_addShare_surfaces_combine_failure replicationSSS failingKeyModel
    [(⟨2, 8, 1, "AA=="⟩ : ShareObject), (⟨2, 8, 2, "AA=="⟩ : ShareObject)]
    ⟨some "ERR_OSSL_UNSUPPORTED", "error:0308010C"⟩ rfl rfl

/-- Claim C8: under the node error shapes (RSA failures carry `ERR_OSSL*`
codes; GCM authentication failures carry the code-less "Unsupported state
or unable to authenticate data" message — both pinned by the repository
tests), the decrypt classification maps an RSA-unwrap failure to the
corrupt-text (key-mismatch) message and an authentication failure to the
distinct corrupt-IV/auth-tag message; the two classes never coincide. -/
theorem C8_decrypt_failure_classification {Pub Priv : Type}
    (A : AsymModel Pub Priv) (M : SymModel)
    (hA : AsymErrorShape A) (hM : SymAuthErrorShape M)
    (env : EncryptedData) (priv : Priv) :
    ((∃ e, A.privDecrypt priv (b64DecodeChars env.encryptedAesKey.data)
        = .error e) →
      decryptTextClassified A M env priv
        = .error ⟨none, "Can't decrypt text, probably text is corrupt."⟩)
    ∧ (∀ key e, A.privDecrypt priv (b64DecodeChars env.encryptedAesKey.data)
        = .ok key →
      M.decrypt key (b64DecodeChars env.initVector.data)
          (b64DecodeChars env.encryptedText.data)
          (b64DecodeChars env.authTag.data) = .error e →
      decryptTextClassified A M env priv
        = .error ⟨none,
            "Can't decrypt text, probably initial vector or auth tag is corrupt."⟩)
    ∧ ("Can't decrypt text, probably text is corrupt."
        ≠ "Can't decrypt text, probably initial vector or auth tag is corrupt.") := by
  refine ⟨?_, ?_, by decide⟩
  · rintro ⟨e, he⟩
    obtain ⟨c, hcode, hossl⟩ := hA.error_ossl priv _ e he
    simp only [decryptTextClassified, decryptText, he, classifyDecryptFailure,
      hcode, hossl, if_true]
  · intro key e hkey hdec
    have hshape := hM.auth_error _ _ _ _ _ hdec
    subst hshape
    simp only [decryptTextClassified, decryptText, hkey, hdec,
      classifyDecryptFailure]
    rfl

/-- Claim C8 witness: instantiated with the never-failing RSA instance and
the always-auth-failing GCM instance (the RSA clause is vacuous there; the
authentication clause fires on a concrete envelope). -/
theorem C8_decrypt_failure_classification_witness :
    ((∃ e, idAsym.privDecrypt 5
        (b64DecodeChars (⟨"", "", "", ""⟩ : EncryptedData).encryptedAesKey.data)
        = .error e) →
      decryptTextClassified idAsym authFailSym (⟨"", "", "", ""⟩ : EncryptedData) 5
        = .error ⟨none, "Can't decrypt text, probably text is corrupt."⟩)
    ∧ (∀ key e, idAsym.privDecrypt 5
        (b64DecodeChars (⟨"", "", "", ""⟩ : EncryptedData).encryptedAesKey.data)
        = .ok key →
      authFailSym.decrypt key
          (b64DecodeChars (⟨"", "", "", ""⟩ : EncryptedData).initVector.data)
          (b64DecodeChars (⟨"", "", "", ""⟩ : EncryptedData).encryptedText.data)
          (b64DecodeChars (⟨"", "", "", ""⟩ : EncryptedData).authTag.data)
        = .error e →
      decryptTextClassified idAsym authFailSym (⟨"", "", "", ""⟩ : EncryptedData) 5
        = .error ⟨none,
            "Can't decrypt text, probably initial vector or auth tag is corrupt."⟩)
    ∧ ("Can't decrypt text, probably text is corrupt."
        ≠ "Can't decrypt text, probably initial vector or auth tag is corrupt.") :=
  C8_decrypt_failure_classification idAsym authFailSym
    idAsym_errorShape authFailSym_authErrorShape (⟨"", "", "", ""⟩ : EncryptedData) 5

/-- Claim C1: for every keypair and `2 ≤ k < n`, splitting the private key
into `n` shares with threshold `k` and recombining any `k`-element subset
(`sharesToPrivateKey`) yields a private key under which `decryptText`
inverts `encryptText` on every plaintext — given the contracts of the
black-box Shamir primitive and of the node crypto layers (spec §1 treats
both as external collaborators). -/
theorem C1_split_combine_decrypt_roundtrip {Raw Pub Priv : Type}
    (S : SSSModel Raw) (hS : SSSContracts S)
    (K : KeyModel Priv) (hK : KeyContracts K)
    (A : AsymModel Pub Priv) (hA : AsymContracts A)
    (M : SymModel) (hM : SymContracts M)
    (k n : Nat) (h2 : 2 ≤ k) (hkn : k < n)
    (pub : Pub) (priv : Priv) (hpair : A.paired pub priv)
    (sub : List ShareObject)
    (hsub : List.Sublist sub (privateKeyToShares S K priv ⟨k, n⟩))
    (hlen : sub.length = k)
    (plaintext : String) (symKey iv : List Nat)
    (hsk : ValidBytes symKey) (hiv : ValidBytes iv) :
    (sharesToPrivateKey S K sub).bind
        (fun key => decryptText A M (encryptText A M plaintext pub symKey iv) key)
      = Except.ok plaintext := by
  have hhex : ValidHex (K.keyToHex priv).data := hK.keyToHex_hex priv
  have hsub' : List.Sublist sub ((S.share (K.keyToHex priv) n k).map
      (fun r => deserializeShareSecret S r k)) := hsub
  obtain ⟨raws, hraws_sub, rfl⟩ := List.sublist_map_iff.mp hsub'
  have hround : ∀ r ∈ raws,
      serializeShareSecret S (deserializeShareSecret S r k) = r := by
    intro r hr
    have hmem : r ∈ S.share (K.keyToHex priv) n k := hraws_sub.subset hr
    have hdh : ValidHex ((S.extract r).dataHex).data :=
      hS.extract_hex _ n k r hhex hmem
    show S.construct (S.extract r).bits (S.extract r).id
        ⟨bytesToHex (b64DecodeChars (b64EncodeBytes
          (hexToBytes ((S.extract r).dataHex).data)))⟩ = r
    rw [b64_decode_encode _ (validBytes_hexToBytes _ hdh.2),
      bytesToHex_hexToBytes _ hdh, string_mk_data]
    exact hS.extract_construct _ n k r hhex hmem
  have hmapid : (raws.map (fun r => deserializeShareSecret S r k)).map
      (serializeShareSecret S) = raws := by
    rw [List.map_map]
    have hcongr : raws.map (serializeShareSecret S ∘ fun r => deserializeShareSecret S r k)
        = raws.map id :=
      List.map_congr_left (fun r hr => hround r hr)
    rw [hcongr, List.map_id]
  have hlenraws : raws.length = k := by
    rw [← hlen, List.length_map]
  have hcomb : combineShares S (raws.map (fun r => deserializeShareSecret S r k))
      = K.keyToHex priv := by
    unfold combineShares
    rw [hmapid]
    exact hS.combine_sublist _ n k hhex h2 hkn raws hraws_sub hlenraws
  have hparse : sharesToPrivateKey S K
      (raws.map (fun r => deserializeShareSecret S r k)) = .ok priv := by
    unfold sharesToPrivateKey
    rw [hcomb, hK.parse_keyToHex priv]
  rw [hparse]
  show decryptText A M (encryptText A M plaintext pub symKey iv) priv
    = Except.ok plaintext
  show (match A.privDecrypt priv (b64DecodeChars
      (b64EncodeBytes (A.pubEncrypt pub symKey))) with
    | .error e => Except.error e
    | .ok symmetricKey =>
      M.decrypt symmetricKey (b64DecodeChars (b64EncodeBytes iv))
        (b64DecodeChars (b64EncodeBytes (M.encrypt symKey iv plaintext).1))
        (b64DecodeChars (b64EncodeBytes (M.encrypt symKey iv plaintext).2)))
    = Except.ok plaintext
  rw [b64_decode_encode _ (hA.encrypt_bytes pub symKey hsk),
    hA.decrypt_encrypt pub priv symKey hpair hsk,
    b64_decode_encode _ hiv,
    b64_decode_encode _ (hM.ct_bytes symKey iv plaintext),
    b64_decode_encode _ (hM.tag_bytes symKey iv plaintext)]
  exact hM.decrypt_encrypt symKey iv plaintext

/-- Claim C1 witness: the concrete instantiation (replication primitive,
`Nat` key handles, identity RSA, byte-encoding GCM) at `k = 2`, `n = 3`,
key `5`, plaintext "Hi": the first two of the three generated shares
recombine to a key that decrypts the envelope. -/
theorem C1_split_combine_decrypt_roundtrip_witness :
    (2 ≤ 2 ∧ 2 < 3 ∧ idAsym.paired 5 5
      ∧ ((privateKeyToShares replicationSSS natKeyModel 5 ⟨2, 3⟩).take 2).length = 2
      ∧ ValidBytes [7] ∧ ValidBytes [1, 2])
    ∧ (sharesToPrivateKey replicationSSS natKeyModel
        ((privateKeyToShares replicationSSS natKeyModel 5 ⟨2, 3⟩).take 2)).bind
        (fun key => decryptText idAsym plainSym
          (encryptText idAsym plainSym "Hi" 5 [7] [1, 2]) key)
      = Except.ok "Hi" :=
  ⟨⟨by decide, by decide, rfl, by decide, by decide, by decide⟩,
   C1_split_combine_decrypt_roundtrip
     replicationSSS replicationSSS_contracts
     natKeyModel natKeyModel_contracts
     idAsym idAsym_contracts
     plainSym plainSym_contracts
     2 3 (by decide) (by decide) 5 5 rfl
     ((privateKeyToShares replicationSSS natKeyModel 5 ⟨2, 3⟩).take 2)
     (List.take_sublist 2 _) (by decide)
     "Hi" [7] [1, 2] (by decide) (by decide)⟩

end SSSCrypto
